import Mathlib

/-!
Shallow embedding of `trade.py` (Celebrum-Ai): an order-sizing and dual-venue
hedged-execution script.  Python floats are modelled as exact rationals,
Python dictionaries with possibly-missing or `None`-valued keys are modelled
with small inductives, and every exchange interaction of `execute` is modelled
against an oracle (`World`) that decides the outcome of each call; the model
returns the list of issued calls (the trace) together with the final result
or the propagated exception.
-/

set_option autoImplicit false

deriving instance DecidableEq for Except

-- Let the kernel evaluate concrete rational arithmetic in `decide` proofs.
attribute [local semireducible] Rat.mul Rat.add Rat.sub Rat.inv

namespace Trade

/-! ## Python string helpers: `str.lower()` and the `in` operator -/

/-- ASCII lowercasing of one character, as Python's `str.lower` does on ASCII. -/
def lowerChar (c : Char) : Char :=
  if 65 ≤ c.toNat ∧ c.toNat ≤ 90 then Char.ofNat (c.toNat + 32) else c

/-- Does the second list start with the first one? -/
def leadsList : List Char → List Char → Bool
  | [], _ => true
  | _ :: _, [] => false
  | a :: as, b :: bs => (a == b) && leadsList as bs

/-- Does `needle` occur contiguously inside the list? -/
def listSearch (needle : List Char) : List Char → Bool
  | [] => needle.isEmpty
  | c :: rest => leadsList needle (c :: rest) || listSearch needle rest

/-- Python's `needle in hay.lower()` for a lowercase literal `needle`. -/
def pyContains (hay needle : String) : Bool :=
  listSearch needle.data (hay.data.map lowerChar)

/-! ## Python `round(x, 2)`: round to two decimals, ties to even -/

/-- Round a rational to the nearest integer, ties to the even integer
(Python's `round` on an exactly-representable value). -/
def roundHalfToEven (x : ℚ) : ℤ :=
  if x - (⌊x⌋ : ℚ) < 1/2 then ⌊x⌋
  else if (1:ℚ)/2 < x - (⌊x⌋ : ℚ) then ⌊x⌋ + 1
  else if ⌊x⌋ % 2 = 0 then ⌊x⌋ else ⌊x⌋ + 1

/-- Python's two-argument `min`. -/
def pymin (a b : ℚ) : ℚ := if a ≤ b then a else b

/-- Python's `round(x, 2)`. -/
def pyRound2 (x : ℚ) : ℚ := (roundHalfToEven (x * 100) : ℚ) / 100

/-! ## `calculate_contracts` (trade.py lines 66–77)

The order book is modelled as its ask list: `(price, amount)` pairs,
cheapest first.  `calcLoop` is the Python `for` loop over `book['asks']`
with its two accumulators `total_cost` and `contracts`. -/

def calcLoop : ℚ → List (ℚ × ℚ) → ℚ → ℚ → ℚ
  | _, [], _, contracts => contracts
  | limit, (price, amount) :: rest, total_cost, contracts =>
    -- cost = price * amount; break and take the affordable fraction when the
    -- cumulative cost would exceed the budget-with-slippage `limit`
    if limit < total_cost + price * amount then contracts + (limit - total_cost) / price
    else calcLoop limit rest (total_cost + price * amount) (contracts + amount)

/-- `calculate_contracts(book, usdt_amount, slippage=0.001)`. -/
def calculate_contracts (asks : List (ℚ × ℚ)) (usdt_amount : ℚ)
    (slippage : ℚ := 1/1000) : ℚ :=
  pyRound2 (calcLoop (usdt_amount * (1 + slippage)) asks 0 0)

/-- Notional cost of buying quantity `qty` by walking the ask levels in order,
taking at each level the amount actually available there: the "sum over levels
of price times the amount actually taken at that level". -/
def fillCost : List (ℚ × ℚ) → ℚ → ℚ
  | [], _ => 0
  | (price, amount) :: rest, qty =>
    if qty ≤ amount then price * qty
    else price * amount + fillCost rest (qty - amount)

/-- Modelled from the spec (§4.1, for the refinement claim about the sizing
walk): "walk ask levels in price order, accumulating `cost = price·amount` and
`filled += amount`.  If adding a level would push cumulative cost over the
budget-with-slippage, take only the fractional amount affordable at that
level's price (`remaining_budget / price`), add it to `filled`, and stop." -/
def sizerSpec : ℚ → List (ℚ × ℚ) → ℚ
  | _, [] => 0
  | limit, (price, amount) :: rest =>
    if limit < price * amount then limit / price
    else amount + sizerSpec (limit - price * amount) rest

/-! ## Leverage negotiation inputs (trade.py lines 90–110)

`MaxLev` is the state of the venue's reported maximum leverage for the traded
symbol: the `max` entry of `market['limits']['leverage']` may be missing
(together with the `leverage` dict itself), present but `None`, or a number. -/

inductive MaxLev
  | absent
  | null
  | val (n : ℚ)
  deriving DecidableEq

inductive PyExc
  | badRequest (msg : String)
  | exchangeError (msg : String)
  | other (msg : String)
  deriving DecidableEq

/-- `ccxt.BadRequest` is a subclass of `ccxt.ExchangeError`, so an
`except ccxt.ExchangeError` clause catches both. -/
def PyExc.isExchangeError : PyExc → Bool
  | .badRequest _ => true
  | .exchangeError _ => true
  | .other _ => false

/-- Bybit (trade.py 90–93): `max_by = m_by['limits'].get('leverage', {}).get('max', leverage)`
then `lev_by = min(leverage, max_by)`.  A missing entry defaults to the
requested leverage; a `None` entry reaches `min(int, None)` (or `None.get`),
which raises a `TypeError` (resp. `AttributeError`) — modelled as an error. -/
def bybitLeverageDecision (requested : ℚ) : MaxLev → Except PyExc ℚ
  | .absent => .ok (pymin requested requested)
  | .null => .error (.other "TypeError: unsupported comparison of int and NoneType")
  | .val n => .ok (pymin requested n)

/-- Binance (trade.py 105–106): `limit_bn = m_bn.get('limits', {}).get('leverage') or {}`
then `max_bn = limit_bn.get('max') or binance_lev`; `or` replaces any falsy
value (missing, `None`, or `0`) by the requested leverage. -/
def binanceLeverageMax (requested : ℚ) : MaxLev → ℚ
  | .absent => requested
  | .null => requested
  | .val n => if n = 0 then requested else n

/-- Binance (trade.py 110): `lev_bn = min(binance_lev, max_bn)`. -/
def binanceLeverageDecision (requested : ℚ) (m : MaxLev) : ℚ :=
  pymin requested (binanceLeverageMax requested m)

/-! ## Hedge sizing (trade.py 129–137) -/

/-- State of the `USDT_AMOUNT` environment variable at execution time:
unset, set to a non-numeric string (`float` raises, caught by the bare
`except`), or set to a numeric string. -/
inductive EnvVal
  | unset
  | invalid
  | num (q : ℚ)
  deriving DecidableEq

/-- `usdt_exec = float(os.getenv('USDT_AMOUNT', size * entry_price))` with the
`except` fallback to `size * entry_price` (trade.py 131–134). -/
def usdtExec (env : EnvVal) (size entry : ℚ) : ℚ :=
  match env with
  | .unset => size * entry
  | .invalid => size * entry
  | .num q => q

/-- `max_qty = usdt_exec * lev_bn / entry_price; hedge_size = min(size, max_qty)`
(trade.py 135–136). -/
def hedge_size_calc (env : EnvVal) (size entry lev_bn : ℚ) : ℚ :=
  pymin size (usdtExec env size entry * lev_bn / entry)

/-! ## Strategy plan (trade.py 79–85) -/

structure Params where
  size : ℚ
  entry : ℚ
  sl : ℚ
  tp : ℚ
  deriving DecidableEq

/-- `plan_strategy(data, usdt_amount)`: sizes against the primary-venue book,
entry is the best ask, SL/TP are fixed ±1% bands.  An empty ask list makes
`book['asks'][0]` raise `IndexError`, modelled as `none`. -/
def plan_strategy (asks : List (ℚ × ℚ)) (usdt_amount : ℚ) : Option Params :=
  match asks with
  | [] => none
  | (p0, _) :: _ =>
    some ⟨calculate_contracts asks usdt_amount (1/1000), p0, p0 * (99/100), p0 * (101/100)⟩

/-! ## The exchange model for `execute` (trade.py 87–209)

Each mutating or querying exchange interaction is recorded in a trace and its
outcome is decided by a `World` oracle, keyed by the number of calls issued so
far (so a retry of a syntactically identical request can get a different
answer).  Bracket-order outcomes are ignored by the code (every bracket
placement is wrapped in its own `try/except` whose handler only logs), so the
oracle is not consulted for them: only the calls themselves are recorded. -/

inductive Venue
  | bybit
  | binance
  deriving DecidableEq

structure OrderReq where
  otype : String
  side : String
  qty : ℚ
  stopPrice : Option ℚ
  positionSide : Option String
  triggerDirection : Option String
  closePosition : Bool
  deriving DecidableEq

/-- A plain market order: `create_market_buy_order` / `create_order(..., 'market', ...)`. -/
def marketOrder (side : String) (qty : ℚ) (positionSide : Option String) : OrderReq :=
  ⟨"market", side, qty, none, positionSide, none, false⟩

inductive TCall
  | setLeverage (v : Venue) (lev : ℚ) (symbol : String)
  | createOrder (v : Venue) (symbol : String) (req : OrderReq)
  | fetchPositions (v : Venue)
  deriving DecidableEq

/-- One entry of `binance.fetch_positions()`: the `contracts` key, falling back
to `positionAmt`, falling back to `0` (trade.py 165). -/
structure Position where
  symbol : String
  contracts : Option ℚ
  positionAmt : Option ℚ
  deriving DecidableEq

structure World where
  setLev : ℕ → Venue → ℚ → Except PyExc Unit
  createOrd : ℕ → Venue → OrderReq → Except PyExc ℕ
  fetchPos : ℕ → Venue → Except PyExc (List Position)

/-- Bybit `set_leverage` handling (trade.py 95–101): a `BadRequest` whose
lowercased message contains `'leverage not modified'` is tolerated; any other
`BadRequest` is re-raised, and any non-`BadRequest` exception is not caught at
all — both propagate out of `execute`. -/
def bybitSetLevHandle (r : Except PyExc Unit) : Except PyExc Unit :=
  match r with
  | .ok _ => .ok ()
  | .error (.badRequest m) =>
    if pyContains m "leverage not modified" then .ok () else .error (.badRequest m)
  | .error e => .error e

/-- The leverage phase of `execute` (trade.py 89–128): Bybit lookup and
`set_leverage`, then the Binance lookup and the three-way `BadRequest`
handling with a one-shot retry at the venue maximum; it yields the trace of
`setLeverage` calls and (unless the Bybit side aborted) the final `lev_bn`. -/
def levPhase (w : World) (sym : String) (bybit_lev binance_lev : ℚ)
    (maxBy maxBn : MaxLev) : List TCall × Except PyExc ℚ :=
  match bybitLeverageDecision bybit_lev maxBy with
  | .error e => ([], .error e)
  | .ok lev_by =>
    match bybitSetLevHandle (w.setLev 0 .bybit lev_by) with
    | .error e => ([TCall.setLeverage .bybit lev_by sym], .error e)
    | .ok _ =>
      let max_bn := binanceLeverageMax binance_lev maxBn
      let lev_bn := pymin binance_lev max_bn
      match w.setLev 1 .binance lev_bn with
      | .ok _ =>
        ([TCall.setLeverage .bybit lev_by sym, TCall.setLeverage .binance lev_bn sym],
         .ok lev_bn)
      | .error (.badRequest m) =>
        if pyContains m "leverage not modified" then
          ([TCall.setLeverage .bybit lev_by sym, TCall.setLeverage .binance lev_bn sym],
           .ok lev_bn)
        else if pyContains m "not valid" then
          -- retry once at the venue maximum; `lev_bn = max_bn` only on success
          match w.setLev 2 .binance max_bn with
          | .ok _ =>
            ([TCall.setLeverage .bybit lev_by sym, TCall.setLeverage .binance lev_bn sym,
              TCall.setLeverage .binance max_bn sym], .ok max_bn)
          | .error _ =>
            ([TCall.setLeverage .bybit lev_by sym, TCall.setLeverage .binance lev_bn sym,
              TCall.setLeverage .binance max_bn sym], .ok lev_bn)
        else
          -- any other BadRequest: logged, negotiation continues
          ([TCall.setLeverage .bybit lev_by sym, TCall.setLeverage .binance lev_bn sym],
           .ok lev_bn)
      | .error _ =>
        -- `except Exception`: logged, negotiation continues
        ([TCall.setLeverage .bybit lev_by sym, TCall.setLeverage .binance lev_bn sym],
         .ok lev_bn)

/-- The hedge leg (trade.py 154–175): the short market order; on a
`ccxt.ExchangeError`, query positions, flatten a positive long exposure and
retry the short once; any failure inside that recovery block (position query,
closing order, or retry) is caught and leaves the hedge abandoned (`none`).
A non-`ExchangeError` exception from the first attempt propagates. -/
def hedgeAttempt (w : World) (t : ℕ) (sym : String) (hq : ℚ) :
    List TCall × Except PyExc (Option ℕ) :=
  match w.createOrd t .binance (marketOrder "sell" hq (some "SHORT")) with
  | .ok r => ([TCall.createOrder .binance sym (marketOrder "sell" hq (some "SHORT"))], .ok (some r))
  | .error e =>
    if e.isExchangeError then
      match w.fetchPos (t + 1) .binance with
      | .error _ =>
        ([TCall.createOrder .binance sym (marketOrder "sell" hq (some "SHORT")),
          TCall.fetchPositions .binance], .ok none)
      | .ok ps =>
        match ps.find? (fun q => q.symbol == sym) with
        | none =>
          ([TCall.createOrder .binance sym (marketOrder "sell" hq (some "SHORT")),
            TCall.fetchPositions .binance], .ok none)
        | some pos =>
          let current := pos.contracts.getD (pos.positionAmt.getD 0)
          if 0 < current then
            match w.createOrd (t + 2) .binance (marketOrder "sell" current (some "BOTH")) with
            | .error _ =>
              ([TCall.createOrder .binance sym (marketOrder "sell" hq (some "SHORT")),
                TCall.fetchPositions .binance,
                TCall.createOrder .binance sym (marketOrder "sell" current (some "BOTH"))],
               .ok none)
            | .ok _ =>
              match w.createOrd (t + 3) .binance (marketOrder "sell" hq (some "SHORT")) with
              | .ok r2 =>
                ([TCall.createOrder .binance sym (marketOrder "sell" hq (some "SHORT")),
                  TCall.fetchPositions .binance,
                  TCall.createOrder .binance sym (marketOrder "sell" current (some "BOTH")),
                  TCall.createOrder .binance sym (marketOrder "sell" hq (some "SHORT"))],
                 .ok (some r2))
              | .error _ =>
                ([TCall.createOrder .binance sym (marketOrder "sell" hq (some "SHORT")),
                  TCall.fetchPositions .binance,
                  TCall.createOrder .binance sym (marketOrder "sell" current (some "BOTH")),
                  TCall.createOrder .binance sym (marketOrder "sell" hq (some "SHORT"))],
                 .ok none)
          else
            ([TCall.createOrder .binance sym (marketOrder "sell" hq (some "SHORT")),
              TCall.fetchPositions .binance], .ok none)
    else
      ([TCall.createOrder .binance sym (marketOrder "sell" hq (some "SHORT"))], .error e)

/-- The bracket phase (trade.py 176–208): Bybit SL then TP, each in its own
`try/except`; the Binance pair (note the inversion: the `TAKE_PROFIT_MARKET`
buy is triggered at `sl` and the `STOP_MARKET` buy at `tp`) is issued only
when the hedge leg holds an order (`if ob2:`). -/
def bracketCalls (sym : String) (size hq sl tp : ℚ) (hedgeOk : Bool) : List TCall :=
  [TCall.createOrder .bybit sym ⟨"STOP_MARKET", "sell", size, some sl, none, some "below", true⟩,
   TCall.createOrder .bybit sym ⟨"TAKE_PROFIT_MARKET", "sell", size, some tp, none, some "above", true⟩]
  ++ (if hedgeOk then
        [TCall.createOrder .binance sym ⟨"TAKE_PROFIT_MARKET", "buy", hq, some sl, some "SHORT", none, true⟩,
         TCall.createOrder .binance sym ⟨"STOP_MARKET", "buy", hq, some tp, some "SHORT", none, true⟩]
      else [])

/-- `execute(symbol, params, bybit_lev, binance_lev, dry_run)` (trade.py 87–209).
The result pairs the call trace with `{'bybit_entry': ob1, 'binance_entry': ob2}`
on normal return, or the propagated exception.  Note that the leverage phase
and the hedge sizing (including the division by `entry_price`, which raises
`ZeroDivisionError` when the entry is zero) happen before the `dry_run` check. -/
def execute (w : World) (sym : String) (p : Params) (bybit_lev binance_lev : ℚ)
    (maxBy maxBn : MaxLev) (env : EnvVal) (dry_run : Bool) :
    List TCall × Except PyExc (Option ℕ × Option ℕ) :=
  match levPhase w sym bybit_lev binance_lev maxBy maxBn with
  | (tr, .error e) => (tr, .error e)
  | (tr, .ok lev_bn) =>
    if p.entry = 0 then (tr, .error (.other "ZeroDivisionError"))
    else
      let hq := hedge_size_calc env p.size p.entry lev_bn
      if dry_run then (tr, .ok (none, none))
      else
        match w.createOrd tr.length .bybit (marketOrder "buy" p.size none) with
        | .error e => (tr ++ [TCall.createOrder .bybit sym (marketOrder "buy" p.size none)], .error e)
        | .ok ob1 =>
          let tr1 := tr ++ [TCall.createOrder .bybit sym (marketOrder "buy" p.size none)]
          match hedgeAttempt w tr1.length sym hq with
          | (trH, .error e) => (tr1 ++ trH, .error e)
          | (trH, .ok ob2) =>
            (tr1 ++ trH ++ bracketCalls sym p.size hq p.sl p.tp ob2.isSome,
             .ok (some ob1, ob2))

/-! ## Concrete worlds used as witnesses and counterexamples -/

/-- Every call succeeds; order references are `1`, no open positions. -/
def wOk : World where
  setLev := fun _ _ _ => .ok ()
  createOrd := fun _ _ _ => .ok 1
  fetchPos := fun _ _ => .ok []

/-- Bybit rejects `set_leverage` with a `BadRequest` that is neither
"leverage not modified" nor "not valid"; everything else succeeds. -/
def wLevRejected : World where
  setLev := fun _ v _ =>
    match v with
    | .bybit => .error (.badRequest "rate limit exceeded")
    | .binance => .ok ()
  createOrd := fun _ _ _ => .ok 1
  fetchPos := fun _ _ => .ok []

/-- The Binance `set_leverage` first attempt is rejected as "not valid"; the
retry (and everything else) succeeds. -/
def wNotValid : World where
  setLev := fun t v _ =>
    match v, t with
    | .binance, 1 => .error (.badRequest "leverage not valid")
    | _, _ => .ok ()
  createOrd := fun _ _ _ => .ok 1
  fetchPos := fun _ _ => .ok []

/-- The primary-venue market order is rejected; everything else succeeds. -/
def wPrimFail : World where
  setLev := fun _ _ _ => .ok ()
  createOrd := fun _ v _ =>
    match v with
    | .bybit => .error (.exchangeError "insufficient balance")
    | .binance => .ok 2
  fetchPos := fun _ _ => .ok []

/-- The hedge short is rejected, a conflicting long of 5 contracts exists,
and the closing order is itself rejected — so the short is never retried. -/
def wCloseFail : World where
  setLev := fun _ _ _ => .ok ()
  createOrd := fun _ v r =>
    match v with
    | .bybit => .ok 7
    | .binance =>
      if r.positionSide == some "SHORT" then .error (.exchangeError "margin insufficient")
      else .error (.exchangeError "close rejected")
  fetchPos := fun _ _ => .ok [⟨"S", some 5, none⟩]

/-- The hedge short is rejected, a conflicting long of 5 contracts exists,
the closing order succeeds and the retried short succeeds. -/
def wRecover : World where
  setLev := fun _ _ _ => .ok ()
  createOrd := fun t v r =>
    match v with
    | .bybit => .ok 11
    | .binance =>
      if r.positionSide == some "BOTH" then .ok 13
      else if t == 3 then .error (.exchangeError "position side conflict")
      else .ok 14
  fetchPos := fun _ _ => .ok [⟨"S", some 5, none⟩]

/-- The hedge short is rejected and no position exists on the symbol. -/
def wHedgeFail : World where
  setLev := fun _ _ _ => .ok ()
  createOrd := fun _ v r =>
    match v, r.positionSide with
    | .binance, some "SHORT" => .error (.exchangeError "margin insufficient")
    | _, _ => .ok 3
  fetchPos := fun _ _ => .ok []

/-! ## Lemmas about the sizer -/

/-- The Python loop accumulators can be factored out: the loop computes the
already-filled contracts plus the walk `sizerSpec` on the remaining budget. -/
theorem calcLoop_eq_sizerSpec (asks : List (ℚ × ℚ)) :
    ∀ limit tc ctr : ℚ, calcLoop limit asks tc ctr = ctr + sizerSpec (limit - tc) asks := by
  induction asks with
  | nil => intro limit tc ctr; simp [calcLoop, sizerSpec]
  | cons hd tl ih =>
    intro limit tc ctr
    obtain ⟨p, a⟩ := hd
    by_cases h : limit < tc + p * a
    · rw [calcLoop, sizerSpec, if_pos h, if_pos (by linarith)]
    · rw [calcLoop, sizerSpec, if_neg h, if_neg (by linarith), ih]
      have he : limit - (tc + p * a) = limit - tc - p * a := by ring
      rw [he]
      ring

theorem sizerSpec_nonneg (asks : List (ℚ × ℚ)) :
    ∀ L : ℚ, 0 ≤ L → (∀ pa ∈ asks, 0 < pa.1 ∧ 0 ≤ pa.2) → 0 ≤ sizerSpec L asks := by
  induction asks with
  | nil => intro L hL _; simp [sizerSpec]
  | cons hd tl ih =>
    intro L hL hmem
    obtain ⟨p, a⟩ := hd
    have hp : 0 < p := (hmem (p, a) (List.mem_cons_self _ _)).1
    have ha : 0 ≤ a := (hmem (p, a) (List.mem_cons_self _ _)).2
    by_cases h : L < p * a
    · rw [sizerSpec, if_pos h]
      exact div_nonneg hL hp.le
    · rw [sizerSpec, if_neg h]
      have h2 : 0 ≤ L - p * a := by linarith [not_lt.mp h]
      have h3 := ih (L - p * a) h2 (fun pa hpa => hmem pa (List.mem_cons_of_mem _ hpa))
      linarith

/-- Walking the book again to price the quantity returned by the sizing walk
costs at most the budget-with-slippage limit. -/
theorem fillCost_sizerSpec_le (asks : List (ℚ × ℚ)) :
    ∀ L : ℚ, 0 ≤ L → (∀ pa ∈ asks, 0 < pa.1 ∧ 0 ≤ pa.2) →
      fillCost asks (sizerSpec L asks) ≤ L := by
  induction asks with
  | nil => intro L hL _; simp [fillCost, sizerSpec]; exact hL
  | cons hd tl ih =>
    intro L hL hmem
    obtain ⟨p, a⟩ := hd
    have hp : 0 < p := (hmem (p, a) (List.mem_cons_self _ _)).1
    have ha : 0 ≤ a := (hmem (p, a) (List.mem_cons_self _ _)).2
    by_cases h : L < p * a
    · rw [sizerSpec, if_pos h, fillCost, if_pos (by
        rw [div_le_iff₀ hp]
        linarith [mul_comm p a])]
      rw [mul_div_cancel₀ _ (ne_of_gt hp)]
    · have hL2 : 0 ≤ L - p * a := by linarith [not_lt.mp h]
      have hr : 0 ≤ sizerSpec (L - p * a) tl :=
        sizerSpec_nonneg tl (L - p * a) hL2 (fun pa hpa => hmem pa (List.mem_cons_of_mem _ hpa))
      rw [sizerSpec, if_neg h, fillCost]
      by_cases hq : a + sizerSpec (L - p * a) tl ≤ a
      · rw [if_pos hq]
        have h0 : sizerSpec (L - p * a) tl = 0 := le_antisymm (by linarith) hr
        rw [h0]
        have := mul_nonneg hp.le ha
        nlinarith [not_lt.mp h]
      · rw [if_neg hq]
        have he : a + sizerSpec (L - p * a) tl - a = sizerSpec (L - p * a) tl := by ring
        rw [he]
        have h4 := ih (L - p * a) hL2 (fun pa hpa => hmem pa (List.mem_cons_of_mem _ hpa))
        linarith

theorem pymin_eq_min (a b : ℚ) : pymin a b = min a b := by
  rw [pymin, min_def]

/-! ## Claim C3 -/

/-- Claim C3 counterexample: for the one-level ask book `[(200, 1)]`, budget
`B = 1` and slippage `s = 0.001`, the sizer takes the affordable fraction
`1.001/200 = 0.005005` of the first level, and the final rounding to two
decimals lifts it to `0.01`; pricing that returned quantity on the book costs
`2`, which exceeds `B·(1+s) = 1.001` — so the cost bound does not survive the
rounding that the claim includes. -/
theorem c3_cost_bound_counterexample :
    fillCost [((200 : ℚ), 1)] (calculate_contracts [((200 : ℚ), 1)] 1 (1/1000)) = 2 ∧
    ¬ fillCost [((200 : ℚ), 1)] (calculate_contracts [((200 : ℚ), 1)] 1 (1/1000))
        ≤ 1 * (1 + 1/1000) := by
  decide

/-- Claim C3, amended: for every ask book with positive prices and
non-negative amounts, non-negative budget `B` and slippage `s`, the cumulative
notional cost of the quantity computed by the sizing loop **before** the final
rounding to 2 decimals never exceeds `B·(1+s)` (the returned value is that
quantity rounded to 2 decimals, and the rounding alone can push the cost past
the bound). -/
theorem c3_cost_bound_unrounded (asks : List (ℚ × ℚ)) (B s : ℚ)
    (hasks : ∀ pa ∈ asks, 0 < pa.1 ∧ 0 ≤ pa.2) (hB : 0 ≤ B) (hs : 0 ≤ s) :
    fillCost asks (calcLoop (B * (1 + s)) asks 0 0) ≤ B * (1 + s) ∧
    calculate_contracts asks B s = pyRound2 (calcLoop (B * (1 + s)) asks 0 0) := by
  constructor
  · have hL : 0 ≤ B * (1 + s) := mul_nonneg hB (by linarith)
    rw [calcLoop_eq_sizerSpec]
    simp only [zero_add, sub_zero]
    exact fillCost_sizerSpec_le asks _ hL hasks
  · rfl

theorem c3_cost_bound_unrounded_witness :
    fillCost [((100 : ℚ), 5), (101, 10)]
        (calcLoop ((1000 : ℚ) * (1 + 1/1000)) [((100 : ℚ), 5), (101, 10)] 0 0)
      ≤ 1000 * (1 + 1/1000) :=
  (c3_cost_bound_unrounded [((100 : ℚ), 5), (101, 10)] 1000 (1/1000)
    (by decide) (by decide) (by decide)).1

/-! ## Claim C5 -/

/-- Claim C5: the sizing loop walks levels in order accumulating full amounts
and, at the first level whose cost would push the cumulative cost over
`B·(1+s)`, adds only `remaining/price` and stops (the walk `sizerSpec`,
written from the spec's words); in particular a first level whose cost alone
exceeds `B·(1+s)` yields `B·(1+s)/price` rounded to 2 decimals, and the empty
ask list yields 0. -/
theorem c5_sizer_walk (asks : List (ℚ × ℚ)) (B s p a : ℚ) (rest : List (ℚ × ℚ)) :
    calculate_contracts asks B s = pyRound2 (sizerSpec (B * (1 + s)) asks) ∧
    calculate_contracts [] B s = 0 ∧
    (B * (1 + s) < p * a →
      calculate_contracts ((p, a) :: rest) B s = pyRound2 (B * (1 + s) / p)) := by
  refine ⟨?_, ?_, ?_⟩
  · rw [calculate_contracts, calcLoop_eq_sizerSpec]
    simp
  · show pyRound2 (calcLoop (B * (1 + s)) [] 0 0) = 0
    rw [calcLoop]
    decide
  · intro h
    show pyRound2 (calcLoop (B * (1 + s)) ((p, a) :: rest) 0 0) = _
    rw [calcLoop, if_pos (by linarith)]
    norm_num

theorem c5_sizer_walk_witness :
    (1 : ℚ) * (1 + 1/1000) < 200 * 1 ∧
    calculate_contracts [((200 : ℚ), 1)] 1 (1/1000) = pyRound2 (1 * (1 + 1/1000) / 200) :=
  ⟨by decide, (c5_sizer_walk [] 1 (1/1000) 200 1 []).2.2 (by decide)⟩

/-! ## Claim C4 -/

/-- Claim C4 counterexample: a venue-reported maximum of `0` on the hedge
venue is falsy, so the code falls back to the requested leverage `20` instead
of `min(20, 0) = 0`; and a `null` reported maximum on the primary venue is
not treated as "no limit" — the lookup raises instead of yielding the
requested leverage. -/
theorem c4_leverage_counterexample :
    binanceLeverageDecision 20 (MaxLev.val 0) = 20 ∧
    binanceLeverageDecision 20 (MaxLev.val 0) ≠ min (20 : ℚ) 0 ∧
    bybitLeverageDecision 20 MaxLev.null ≠ .ok 20 := by
  refine ⟨by decide, ?_, by decide⟩
  rw [min_eq_right (by norm_num : (0 : ℚ) ≤ 20)]
  decide

/-- Claim C4, amended: on both venues a reported maximum value `n ≠ 0` gives
effective leverage `min(requested, n)`, and an absent maximum gives the
requested leverage; on the hedge venue a `null` or `0` reported maximum also
gives the requested leverage, while on the primary venue a `null` reported
maximum makes the lookup fail (`min(int, None)` raises) rather than yielding
the requested value. -/
theorem c4_leverage_amended (req n : ℚ) :
    bybitLeverageDecision req (MaxLev.val n) = .ok (min req n) ∧
    bybitLeverageDecision req MaxLev.absent = .ok req ∧
    (bybitLeverageDecision req MaxLev.null).isOk = false ∧
    (n ≠ 0 → binanceLeverageDecision req (MaxLev.val n) = min req n) ∧
    binanceLeverageDecision req MaxLev.absent = req ∧
    binanceLeverageDecision req MaxLev.null = req ∧
    binanceLeverageDecision req (MaxLev.val 0) = req := by
  refine ⟨?_, ?_, rfl, ?_, ?_, ?_, ?_⟩
  · rw [bybitLeverageDecision, pymin_eq_min]
  · rw [bybitLeverageDecision, pymin_eq_min, min_self]
  · intro hn
    rw [binanceLeverageDecision, binanceLeverageMax, if_neg hn, pymin_eq_min]
  · rw [binanceLeverageDecision, binanceLeverageMax, pymin_eq_min, min_self]
  · rw [binanceLeverageDecision, binanceLeverageMax, pymin_eq_min, min_self]
  · rw [binanceLeverageDecision, binanceLeverageMax, if_pos rfl, pymin_eq_min, min_self]

theorem c4_leverage_amended_witness :
    binanceLeverageDecision 50 (MaxLev.val 25) = min (50 : ℚ) 25 :=
  (c4_leverage_amended 50 25).2.2.2.1 (by norm_num)

/-! ## Claim C6 -/

/-- Claim C6 counterexample: for target size `-1`, entry `1`, leverage `1`
and an unset budget, the hedge size is `min(-1, -1) = -1 < 0`, so the hedge
size is not "never negative" over all inputs. -/
theorem c6_hedge_size_counterexample :
    hedge_size_calc EnvVal.unset (-1) 1 1 = -1 ∧
    hedge_size_calc EnvVal.unset (-1) 1 1 < 0 := by
  decide

/-- Claim C6, amended: the hedge size always equals
`min(targetSize, budget·leverage/entry)` with the budget falling back to
`size·entry` when the `USDT_AMOUNT` input is absent or non-numeric, and it is
non-negative provided the target size, the budget and the leverage are
non-negative and the entry price is positive (a negative target size or
budget makes it negative). -/
theorem c6_hedge_size_amended (env : EnvVal) (size entry lev q : ℚ) :
    hedge_size_calc env size entry lev = min size (usdtExec env size entry * lev / entry) ∧
    usdtExec EnvVal.unset size entry = size * entry ∧
    usdtExec EnvVal.invalid size entry = size * entry ∧
    usdtExec (EnvVal.num q) size entry = q ∧
    (0 ≤ size → 0 ≤ usdtExec env size entry → 0 ≤ lev → 0 < entry →
      0 ≤ hedge_size_calc env size entry lev) := by
  refine ⟨by rw [hedge_size_calc, pymin_eq_min], rfl, rfl, rfl, ?_⟩
  intro h1 h2 h3 h4
  rw [hedge_size_calc, pymin_eq_min]
  exact le_min h1 (div_nonneg (mul_nonneg h2 h3) h4.le)

theorem c6_hedge_size_amended_witness :
    0 ≤ hedge_size_calc EnvVal.unset 5 2 3 :=
  (c6_hedge_size_amended EnvVal.unset 5 2 3 7).2.2.2.2
    (by norm_num) (by decide) (by norm_num) (by norm_num)

/-! ## Lemmas about the leverage phase -/

def TCall.isOrderPlacement : TCall → Bool
  | .createOrder _ _ _ => true
  | _ => false

/-- Every run of the leverage phase either aborts on the primary-venue `null`
maximum, aborts with the propagated Bybit `set_leverage` rejection, or
succeeds; its trace is the Bybit `setLeverage` call followed by one or two
Binance `setLeverage` calls. -/
theorem levPhase_shape (w : World) (sym : String) (bl nl : ℚ) (mb mn : MaxLev) :
    (mb = MaxLev.null ∧ levPhase w sym bl nl mb mn =
      ([], .error (.other "TypeError: unsupported comparison of int and NoneType"))) ∨
    (∃ lby, bybitLeverageDecision bl mb = .ok lby ∧
      ((∃ e, bybitSetLevHandle (w.setLev 0 .bybit lby) = .error e ∧
          levPhase w sym bl nl mb mn = ([TCall.setLeverage .bybit lby sym], .error e)) ∨
       (∃ tr2 lev, levPhase w sym bl nl mb mn =
            (TCall.setLeverage .bybit lby sym :: tr2, .ok lev) ∧
          (∃ l, TCall.setLeverage .binance l sym ∈ tr2) ∧
          ∀ c ∈ tr2, ∃ l, c = TCall.setLeverage .binance l sym))) := by
  have hmain : ∀ lby, bybitLeverageDecision bl mb = .ok lby →
      (∃ e, bybitSetLevHandle (w.setLev 0 .bybit lby) = .error e ∧
          levPhase w sym bl nl mb mn = ([TCall.setLeverage .bybit lby sym], .error e)) ∨
      (∃ tr2 lev, levPhase w sym bl nl mb mn =
          (TCall.setLeverage .bybit lby sym :: tr2, .ok lev) ∧
        (∃ l, TCall.setLeverage .binance l sym ∈ tr2) ∧
        ∀ c ∈ tr2, ∃ l, c = TCall.setLeverage .binance l sym) := by
    intro lby hd
    cases hh : bybitSetLevHandle (w.setLev 0 .bybit lby) with
    | error e =>
      exact Or.inl ⟨e, rfl, by simp [levPhase, hd, hh]⟩
    | ok u =>
      refine Or.inr ?_
      cases hw : w.setLev 1 .binance (pymin nl (binanceLeverageMax nl mn)) with
      | ok v =>
        exact ⟨[TCall.setLeverage .binance (pymin nl (binanceLeverageMax nl mn)) sym],
          pymin nl (binanceLeverageMax nl mn),
          by simp [levPhase, hd, hh, hw],
          ⟨pymin nl (binanceLeverageMax nl mn), by simp⟩,
          by intro c hc; simp at hc; subst hc; exact ⟨_, rfl⟩⟩
      | error e =>
        cases e with
        | badRequest m =>
          by_cases c1 : pyContains m "leverage not modified"
          · exact ⟨[TCall.setLeverage .binance (pymin nl (binanceLeverageMax nl mn)) sym],
              pymin nl (binanceLeverageMax nl mn),
              by simp [levPhase, hd, hh, hw, c1],
              ⟨pymin nl (binanceLeverageMax nl mn), by simp⟩,
              by intro c hc; simp at hc; subst hc; exact ⟨_, rfl⟩⟩
          · by_cases c2 : pyContains m "not valid"
            · cases hw2 : w.setLev 2 .binance (binanceLeverageMax nl mn) with
              | ok v =>
                refine ⟨[TCall.setLeverage .binance (pymin nl (binanceLeverageMax nl mn)) sym,
                  TCall.setLeverage .binance (binanceLeverageMax nl mn) sym],
                  binanceLeverageMax nl mn,
                  by simp [levPhase, hd, hh, hw, c1, c2, hw2],
                  ⟨pymin nl (binanceLeverageMax nl mn), by simp⟩, ?_⟩
                intro c hc
                simp at hc
                rcases hc with rfl | rfl
                · exact ⟨_, rfl⟩
                · exact ⟨_, rfl⟩
              | error e2 =>
                refine ⟨[TCall.setLeverage .binance (pymin nl (binanceLeverageMax nl mn)) sym,
                  TCall.setLeverage .binance (binanceLeverageMax nl mn) sym],
                  pymin nl (binanceLeverageMax nl mn),
                  by simp [levPhase, hd, hh, hw, c1, c2, hw2],
                  ⟨pymin nl (binanceLeverageMax nl mn), by simp⟩, ?_⟩
                intro c hc
                simp at hc
                rcases hc with rfl | rfl
                · exact ⟨_, rfl⟩
                · exact ⟨_, rfl⟩
            · exact ⟨[TCall.setLeverage .binance (pymin nl (binanceLeverageMax nl mn)) sym],
                pymin nl (binanceLeverageMax nl mn),
                by simp [levPhase, hd, hh, hw, c1, c2],
                ⟨pymin nl (binanceLeverageMax nl mn), by simp⟩,
                by intro c hc; simp at hc; subst hc; exact ⟨_, rfl⟩⟩
        | exchangeError m =>
          exact ⟨[TCall.setLeverage .binance (pymin nl (binanceLeverageMax nl mn)) sym],
            pymin nl (binanceLeverageMax nl mn),
            by simp [levPhase, hd, hh, hw],
            ⟨pymin nl (binanceLeverageMax nl mn), by simp⟩,
            by intro c hc; simp at hc; subst hc; exact ⟨_, rfl⟩⟩
        | other m =>
          exact ⟨[TCall.setLeverage .binance (pymin nl (binanceLeverageMax nl mn)) sym],
            pymin nl (binanceLeverageMax nl mn),
            by simp [levPhase, hd, hh, hw],
            ⟨pymin nl (binanceLeverageMax nl mn), by simp⟩,
            by intro c hc; simp at hc; subst hc; exact ⟨_, rfl⟩⟩
  cases mb with
  | null => exact Or.inl ⟨rfl, rfl⟩
  | absent => exact Or.inr ⟨pymin bl bl, rfl, hmain _ rfl⟩
  | val n => exact Or.inr ⟨pymin bl n, rfl, hmain _ rfl⟩

/-- The leverage phase issues no order-placement call. -/
theorem levPhase_no_orders (w : World) (sym : String) (bl nl : ℚ) (mb mn : MaxLev) :
    ∀ c ∈ (levPhase w sym bl nl mb mn).1, ∃ v l s, c = TCall.setLeverage v l s := by
  rcases levPhase_shape w sym bl nl mb mn with ⟨_, h⟩ | ⟨lby, _, ⟨e, _, h⟩ | ⟨tr2, lev, h, _, htr⟩⟩
  · rw [h]; intro c hc; simp at hc
  · rw [h]; intro c hc; simp at hc; subst hc; exact ⟨_, _, _, rfl⟩
  · rw [h]
    intro c hc
    rcases List.mem_cons.mp hc with rfl | hc2
    · exact ⟨_, _, _, rfl⟩
    · obtain ⟨l, rfl⟩ := htr c hc2
      exact ⟨_, _, _, rfl⟩

theorem pymin_self (a : ℚ) : pymin a a = a := by simp [pymin]

/-- Every call of the leverage phase appears in the trace of `execute`. -/
theorem levPhase_trace_subset_execute (w : World) (sym : String) (p : Params)
    (bl nl : ℚ) (mb mn : MaxLev) (env : EnvVal) (dry : Bool) :
    ∀ c ∈ (levPhase w sym bl nl mb mn).1, c ∈ (execute w sym p bl nl mb mn env dry).1 := by
  intro c hc
  rcases hlp : levPhase w sym bl nl mb mn with ⟨tr, res⟩
  rw [hlp] at hc
  cases res with
  | error e => simpa [execute, hlp] using hc
  | ok lev =>
    by_cases he : p.entry = 0
    · simpa [execute, hlp, he] using hc
    · cases dry with
      | true => simpa [execute, hlp, he] using hc
      | false =>
        cases hco : w.createOrd tr.length .bybit (marketOrder "buy" p.size none) with
        | error e => simp [execute, hlp, he, hco, hc]
        | ok ob1 =>
          rcases hha : hedgeAttempt w (tr.length + 1) sym
              (hedge_size_calc env p.size p.entry lev) with ⟨trH, resH⟩
          cases resH with
          | error e => simp [execute, hlp, he, hco, hha, hc]
          | ok ob2 => simp [execute, hlp, he, hco, hha, hc]

/-- In a dry run the trace is exactly the leverage-phase trace, and the
result is either the double-`none` pair or a propagated exception. -/
theorem execute_dry (w : World) (sym : String) (p : Params) (bl nl : ℚ)
    (mb mn : MaxLev) (env : EnvVal) :
    (execute w sym p bl nl mb mn env true).1 = (levPhase w sym bl nl mb mn).1 ∧
    ((execute w sym p bl nl mb mn env true).2 = .ok (none, none) ∨
      ∃ e, (execute w sym p bl nl mb mn env true).2 = .error e) := by
  rcases hlp : levPhase w sym bl nl mb mn with ⟨tr, res⟩
  cases res with
  | error e =>
    refine ⟨by simp [execute, hlp], Or.inr ⟨e, by simp [execute, hlp]⟩⟩
  | ok lev =>
    by_cases he : p.entry = 0
    · exact ⟨by simp [execute, hlp, he],
        Or.inr ⟨.other "ZeroDivisionError", by simp [execute, hlp, he]⟩⟩
    · exact ⟨by simp [execute, hlp, he], Or.inl (by simp [execute, hlp, he])⟩

/-! ## Claim C1 -/

/-- Claim C1 counterexample: with `dry_run = true` the mutating `setLeverage`
operation is still invoked on the primary venue (the dry-run check sits after
the leverage negotiation), even though the returned references are both null.
-/
theorem c1_dry_run_counterexample :
    TCall.setLeverage Venue.bybit 20 "S" ∈
      (execute wOk "S" ⟨1, 1, 1, 1⟩ 20 20 MaxLev.absent MaxLev.absent EnvVal.unset true).1 ∧
    (execute wOk "S" ⟨1, 1, 1, 1⟩ 20 20 MaxLev.absent MaxLev.absent EnvVal.unset true).2 =
      .ok (none, none) := by
  decide

/-- Claim C1, amended: with `dry_run = true` no order-placement call (market
order or bracket) is ever issued and any normal return carries both order
references null; however `setLeverage` is still invoked on the venues (the
dry-run short-circuit happens only after leverage negotiation and hedge
sizing). -/
theorem c1_dry_run_amended (w : World) (sym : String) (p : Params) (bl nl : ℚ)
    (mb mn : MaxLev) (env : EnvVal) :
    ((execute w sym p bl nl mb mn env true).1.all fun c => !c.isOrderPlacement) = true ∧
    (∀ refs, (execute w sym p bl nl mb mn env true).2 = .ok refs → refs = (none, none)) ∧
    (mb ≠ MaxLev.null →
      ∃ l, TCall.setLeverage Venue.bybit l sym ∈ (execute w sym p bl nl mb mn env true).1) := by
  obtain ⟨htr, hres⟩ := execute_dry w sym p bl nl mb mn env
  refine ⟨?_, ?_, ?_⟩
  · rw [htr, List.all_eq_true]
    intro c hc
    obtain ⟨v, l, s, rfl⟩ := levPhase_no_orders w sym bl nl mb mn c hc
    rfl
  · intro refs h
    rcases hres with h2 | ⟨e, h2⟩
    · exact (Except.ok.inj (h2.symm.trans h)).symm
    · rw [h2] at h
      exact absurd h (by simp)
  · intro hmb
    rw [htr]
    rcases levPhase_shape w sym bl nl mb mn with ⟨hnull, _⟩ | ⟨lby, hd, hcase⟩
    · exact absurd hnull hmb
    · rcases hcase with ⟨e, _, h⟩ | ⟨tr2, lev, h, _, _⟩
      · exact ⟨lby, by rw [h]; simp⟩
      · exact ⟨lby, by rw [h]; simp⟩

theorem c1_dry_run_amended_witness :
    ∃ l, TCall.setLeverage Venue.bybit l "S" ∈
      (execute wOk "S" ⟨1, 1, 1, 1⟩ 20 20 MaxLev.absent MaxLev.absent EnvVal.unset true).1 :=
  (c1_dry_run_amended wOk "S" ⟨1, 1, 1, 1⟩ 20 20 MaxLev.absent MaxLev.absent EnvVal.unset).2.2
    (by decide)

/-! ## Claim C2 -/

/-- Claim C2 counterexample: a primary-venue (Bybit) `setLeverage` rejection
whose message is neither "leverage not modified" nor "not valid" is re-raised
and aborts the whole run — the trace stops after the single Bybit
`setLeverage` call and the error propagates, refuting "a venue rejection of
`setLeverage` is non-fatal and never aborts the run" for that venue. -/
theorem c2_leverage_rejection_counterexample :
    execute wLevRejected "S" ⟨1, 1, 1, 1⟩ 20 20 MaxLev.absent MaxLev.absent EnvVal.unset false =
      ([TCall.setLeverage Venue.bybit 20 "S"], .error (.badRequest "rate limit exceeded")) := by
  decide

/-- Claim C2, amended: on the hedge venue (Binance) a `setLeverage` rejection
is non-fatal — an "already set" message is treated as success, a "not valid"
message triggers exactly one retry at the venue maximum, and anything else is
logged and negotiation continues — but on the primary venue (Bybit) only an
"already set" rejection is tolerated: any other rejection propagates and
aborts the run before any order is placed. -/
theorem c2_leverage_amended (w : World) (sym : String) (p : Params) (bl nl : ℚ)
    (mn : MaxLev) (env : EnvVal) (dry : Bool) (m m2 : String) :
    (pyContains m "leverage not modified" = false →
      w.setLev 0 .bybit bl = .error (.badRequest m) →
      execute w sym p bl nl .absent mn env dry =
        ([TCall.setLeverage .bybit bl sym], .error (.badRequest m))) ∧
    (pyContains m "leverage not modified" = true →
      w.setLev 0 .bybit bl = .error (.badRequest m) →
      ∃ l, TCall.setLeverage .binance l sym ∈ (execute w sym p bl nl .absent mn env dry).1) ∧
    (w.setLev 0 .bybit bl = .ok () → p.entry ≠ 0 →
      (execute w sym p bl nl .absent mn env true).2 = .ok (none, none) ∧
      (pyContains m2 "leverage not modified" = false → pyContains m2 "not valid" = true →
        w.setLev 1 .binance (pymin nl (binanceLeverageMax nl mn)) = .error (.badRequest m2) →
        (execute w sym p bl nl .absent mn env true).1 =
          [TCall.setLeverage .bybit bl sym,
           TCall.setLeverage .binance (pymin nl (binanceLeverageMax nl mn)) sym,
           TCall.setLeverage .binance (binanceLeverageMax nl mn) sym])) := by
  refine ⟨?_, ?_, ?_⟩
  · intro h1 h2
    simp [execute, levPhase, bybitLeverageDecision, pymin_self, h2, bybitSetLevHandle, h1]
  · intro h1 h2
    rcases levPhase_shape w sym bl nl .absent mn with ⟨hnull, _⟩ | ⟨lby, hd, hcase⟩
    · exact absurd hnull (by simp)
    · simp only [bybitLeverageDecision, pymin_self, Except.ok.injEq] at hd
      subst hd
      rcases hcase with ⟨e, hh, _⟩ | ⟨tr2, lev, hlp, ⟨l, hl⟩, _⟩
      · rw [h2] at hh
        simp [bybitSetLevHandle, h1] at hh
      · refine ⟨l, levPhase_trace_subset_execute w sym p bl nl .absent mn env dry _ ?_⟩
        rw [hlp]
        exact List.mem_cons_of_mem _ hl
  · intro hby hentry
    rcases levPhase_shape w sym bl nl .absent mn with ⟨hnull, _⟩ | ⟨lby, hd, hcase⟩
    · exact absurd hnull (by simp)
    · simp only [bybitLeverageDecision, pymin_self, Except.ok.injEq] at hd
      subst hd
      rcases hcase with ⟨e, hh, _⟩ | ⟨tr2, lev, hlp, _, _⟩
      · rw [hby] at hh
        simp [bybitSetLevHandle] at hh
      · refine ⟨by simp [execute, hlp, hentry], ?_⟩
        intro hm2a hm2b hw1
        obtain ⟨htr, _⟩ := execute_dry w sym p bl nl .absent mn env
        rw [htr]
        cases hw2 : w.setLev 2 .binance (binanceLeverageMax nl mn) with
        | ok v =>
          simp [levPhase, bybitLeverageDecision, pymin_self, hby, bybitSetLevHandle,
            hw1, hm2a, hm2b, hw2]
        | error e2 =>
          simp [levPhase, bybitLeverageDecision, pymin_self, hby, bybitSetLevHandle,
            hw1, hm2a, hm2b, hw2]

theorem c2_leverage_amended_witness :
    execute wLevRejected "T" ⟨1, 1, 1, 1⟩ 20 20 MaxLev.absent MaxLev.absent EnvVal.unset false =
      ([TCall.setLeverage Venue.bybit 20 "T"], .error (.badRequest "rate limit exceeded")) ∧
    (execute wNotValid "S" ⟨1, 1, 1, 1⟩ 20 20 MaxLev.absent MaxLev.absent EnvVal.unset true).2 =
      .ok (none, none) ∧
    (execute wNotValid "S" ⟨1, 1, 1, 1⟩ 20 20 MaxLev.absent MaxLev.absent EnvVal.unset true).1 =
      [TCall.setLeverage Venue.bybit 20 "S",
       TCall.setLeverage Venue.binance (pymin 20 (binanceLeverageMax 20 MaxLev.absent)) "S",
       TCall.setLeverage Venue.binance (binanceLeverageMax 20 MaxLev.absent) "S"] :=
  have h3 := (c2_leverage_amended wNotValid "S" ⟨1, 1, 1, 1⟩ 20 20 MaxLev.absent
    EnvVal.unset true "x" "leverage not valid").2.2 (by decide) (by decide)
  ⟨(c2_leverage_amended wLevRejected "T" ⟨1, 1, 1, 1⟩ 20 20 MaxLev.absent
      EnvVal.unset false "rate limit exceeded" "y").1 (by decide) (by decide),
   h3.1, h3.2 (by decide) (by decide) (by decide)⟩

/-! ## Claim C7 -/

/-- Claim C7: in a non-dry run whose primary-venue market order is rejected,
the run aborts propagating that error, and the trace contains no hedge-venue
order and no bracket order — every order placement in the trace is the single
primary-venue market buy. -/
theorem c7_primary_failure (w : World) (sym : String) (p : Params) (bl nl : ℚ)
    (mb mn : MaxLev) (env : EnvVal) (e : PyExc)
    (hlev : ∃ lby, bybitLeverageDecision bl mb = .ok lby ∧
      bybitSetLevHandle (w.setLev 0 .bybit lby) = .ok ())
    (hentry : p.entry ≠ 0)
    (hprim : ∀ t, w.createOrd t .bybit (marketOrder "buy" p.size none) = .error e) :
    (execute w sym p bl nl mb mn env false).2 = .error e ∧
    ∀ c ∈ (execute w sym p bl nl mb mn env false).1,
      ∀ v s r, c = TCall.createOrder v s r →
        v = Venue.bybit ∧ r = marketOrder "buy" p.size none := by
  obtain ⟨lby, hd, hh⟩ := hlev
  rcases levPhase_shape w sym bl nl mb mn with ⟨hnull, _⟩ | ⟨lby2, hd2, hcase⟩
  · rw [hnull] at hd
    simp [bybitLeverageDecision] at hd
  · have hlby : lby2 = lby := Except.ok.inj (hd2.symm.trans hd)
    subst hlby
    rcases hcase with ⟨e2, hh2, _⟩ | ⟨tr2, lev, hlp, _, htr2⟩
    · rw [hh] at hh2
      exact absurd hh2 (by simp)
    · constructor
      · simp [execute, hlp, hentry, hprim]
      · intro c hc v s r hcr
        have hc2 : c = TCall.setLeverage .bybit lby2 sym ∨ c ∈ tr2 ∨
            c = TCall.createOrder .bybit sym (marketOrder "buy" p.size none) := by
          rw [show (execute w sym p bl nl mb mn env false).1 =
              TCall.setLeverage .bybit lby2 sym ::
                (tr2 ++ [TCall.createOrder .bybit sym (marketOrder "buy" p.size none)]) by
            simp [execute, hlp, hentry, hprim]] at hc
          rcases List.mem_cons.mp hc with h | h
          · exact Or.inl h
          · rcases List.mem_append.mp h with h | h
            · exact Or.inr (Or.inl h)
            · exact Or.inr (Or.inr (by simpa using h))
        rcases hc2 with rfl | h2 | rfl
        · exact absurd hcr (by simp)
        · obtain ⟨l, rfl⟩ := htr2 c h2
          exact absurd hcr (by simp)
        · injection hcr with h1 h2 h3
          exact ⟨h1.symm, h3.symm⟩

theorem c7_primary_failure_witness :
    (execute wPrimFail "S" ⟨1, 1, 1, 1⟩ 20 20 MaxLev.absent MaxLev.absent EnvVal.unset false).2 =
      .error (.exchangeError "insufficient balance") :=
  (c7_primary_failure wPrimFail "S" ⟨1, 1, 1, 1⟩ 20 20 MaxLev.absent MaxLev.absent EnvVal.unset
    (.exchangeError "insufficient balance")
    ⟨pymin 20 20, by decide, by decide⟩ (by decide) (fun t => rfl)).1

/-! ## Lemmas about the hedge leg and the bracket phase -/

theorem hedgeAttempt_ok (w : World) (t : ℕ) (sym : String) (hq : ℚ) (r : ℕ)
    (h : w.createOrd t .binance (marketOrder "sell" hq (some "SHORT")) = .ok r) :
    hedgeAttempt w t sym hq =
      ([TCall.createOrder .binance sym (marketOrder "sell" hq (some "SHORT"))], .ok (some r)) := by
  simp [hedgeAttempt, h]

theorem hedgeAttempt_fail_nopos (w : World) (t : ℕ) (sym : String) (hq : ℚ) (m : String)
    (h : w.createOrd t .binance (marketOrder "sell" hq (some "SHORT")) = .error (.exchangeError m))
    (hfp : w.fetchPos (t + 1) .binance = .ok []) :
    hedgeAttempt w t sym hq =
      ([TCall.createOrder .binance sym (marketOrder "sell" hq (some "SHORT")),
        TCall.fetchPositions .binance], .ok none) := by
  simp [hedgeAttempt, h, hfp, PyExc.isExchangeError]

theorem hedgeAttempt_close_fail (w : World) (t : ℕ) (sym : String) (hq q : ℚ) (m : String)
    (e2 : PyExc)
    (h : w.createOrd t .binance (marketOrder "sell" hq (some "SHORT")) = .error (.exchangeError m))
    (hfp : w.fetchPos (t + 1) .binance = .ok [⟨sym, some q, none⟩])
    (hqpos : 0 < q)
    (hclose : w.createOrd (t + 2) .binance (marketOrder "sell" q (some "BOTH")) = .error e2) :
    hedgeAttempt w t sym hq =
      ([TCall.createOrder .binance sym (marketOrder "sell" hq (some "SHORT")),
        TCall.fetchPositions .binance,
        TCall.createOrder .binance sym (marketOrder "sell" q (some "BOTH"))], .ok none) := by
  simp [hedgeAttempt, h, hfp, PyExc.isExchangeError, List.find?, hqpos, hclose]

theorem hedgeAttempt_recover (w : World) (t : ℕ) (sym : String) (hq q : ℚ) (m : String)
    (cref r2 : ℕ)
    (h : w.createOrd t .binance (marketOrder "sell" hq (some "SHORT")) = .error (.exchangeError m))
    (hfp : w.fetchPos (t + 1) .binance = .ok [⟨sym, some q, none⟩])
    (hqpos : 0 < q)
    (hclose : w.createOrd (t + 2) .binance (marketOrder "sell" q (some "BOTH")) = .ok cref)
    (hretry : w.createOrd (t + 3) .binance (marketOrder "sell" hq (some "SHORT")) = .ok r2) :
    hedgeAttempt w t sym hq =
      ([TCall.createOrder .binance sym (marketOrder "sell" hq (some "SHORT")),
        TCall.fetchPositions .binance,
        TCall.createOrder .binance sym (marketOrder "sell" q (some "BOTH")),
        TCall.createOrder .binance sym (marketOrder "sell" hq (some "SHORT"))],
       .ok (some r2)) := by
  simp [hedgeAttempt, h, hfp, PyExc.isExchangeError, List.find?, hqpos, hclose, hretry]

theorem hedgeAttempt_retry_fail (w : World) (t : ℕ) (sym : String) (hq q : ℚ) (m : String)
    (cref : ℕ) (e3 : PyExc)
    (h : w.createOrd t .binance (marketOrder "sell" hq (some "SHORT")) = .error (.exchangeError m))
    (hfp : w.fetchPos (t + 1) .binance = .ok [⟨sym, some q, none⟩])
    (hqpos : 0 < q)
    (hclose : w.createOrd (t + 2) .binance (marketOrder "sell" q (some "BOTH")) = .ok cref)
    (hretry : w.createOrd (t + 3) .binance (marketOrder "sell" hq (some "SHORT")) = .error e3) :
    hedgeAttempt w t sym hq =
      ([TCall.createOrder .binance sym (marketOrder "sell" hq (some "SHORT")),
        TCall.fetchPositions .binance,
        TCall.createOrder .binance sym (marketOrder "sell" q (some "BOTH")),
        TCall.createOrder .binance sym (marketOrder "sell" hq (some "SHORT"))],
       .ok none) := by
  simp [hedgeAttempt, h, hfp, PyExc.isExchangeError, List.find?, hqpos, hclose, hretry]

/-- Every call the hedge leg issues goes to the hedge venue. -/
theorem hedgeAttempt_calls (w : World) (t : ℕ) (sym : String) (hq : ℚ) :
    ∀ c ∈ (hedgeAttempt w t sym hq).1,
      c = TCall.fetchPositions .binance ∨ ∃ r, c = TCall.createOrder .binance sym r := by
  intro c hc
  unfold hedgeAttempt at hc
  cases h0 : w.createOrd t .binance (marketOrder "sell" hq (some "SHORT")) with
  | ok r =>
    simp [h0] at hc
    subst hc
    exact Or.inr ⟨_, rfl⟩
  | error e =>
    cases hb : e.isExchangeError with
    | false =>
      simp [h0, hb] at hc
      subst hc
      exact Or.inr ⟨_, rfl⟩
    | true =>
      cases hfp : w.fetchPos (t + 1) .binance with
      | error e2 =>
        simp [h0, hb, hfp] at hc
        rcases hc with rfl | rfl
        · exact Or.inr ⟨_, rfl⟩
        · exact Or.inl rfl
      | ok ps =>
        cases hfind : ps.find? (fun p => p.symbol == sym) with
        | none =>
          simp [h0, hb, hfp, hfind] at hc
          rcases hc with rfl | rfl
          · exact Or.inr ⟨_, rfl⟩
          · exact Or.inl rfl
        | some pos =>
          by_cases hcur : 0 < pos.contracts.getD (pos.positionAmt.getD 0)
          · cases hclose : w.createOrd (t + 2) .binance
                (marketOrder "sell" (pos.contracts.getD (pos.positionAmt.getD 0)) (some "BOTH")) with
            | error e2 =>
              simp [h0, hb, hfp, hfind, hcur, hclose] at hc
              rcases hc with rfl | rfl | rfl
              · exact Or.inr ⟨_, rfl⟩
              · exact Or.inl rfl
              · exact Or.inr ⟨_, rfl⟩
            | ok cref =>
              cases hretry : w.createOrd (t + 3) .binance (marketOrder "sell" hq (some "SHORT")) with
              | ok r2 =>
                simp [h0, hb, hfp, hfind, hcur, hclose, hretry] at hc
                rcases hc with rfl | rfl | rfl | rfl
                · exact Or.inr ⟨_, rfl⟩
                · exact Or.inl rfl
                · exact Or.inr ⟨_, rfl⟩
                · exact Or.inr ⟨_, rfl⟩
              | error e3 =>
                simp [h0, hb, hfp, hfind, hcur, hclose, hretry] at hc
                rcases hc with rfl | rfl | rfl | rfl
                · exact Or.inr ⟨_, rfl⟩
                · exact Or.inl rfl
                · exact Or.inr ⟨_, rfl⟩
                · exact Or.inr ⟨_, rfl⟩
          · simp [h0, hb, hfp, hfind, hcur] at hc
            rcases hc with rfl | rfl
            · exact Or.inr ⟨_, rfl⟩
            · exact Or.inl rfl

/-- No bracket call is a plain market order. -/
theorem bracketCalls_no_market (sym : String) (size hq sl tp : ℚ) (b : Bool)
    (s : String) (q : ℚ) (ps : Option String) (v : Venue) :
    TCall.createOrder v s (marketOrder "sell" q ps) ∉ bracketCalls sym size hq sl tp b := by
  cases b <;> simp [bracketCalls, marketOrder]

/-- With both venues' market lookups clean and `set_leverage` succeeding, the
leverage phase is two `setLeverage` calls and yields the requested hedge-venue
leverage. -/
theorem levPhase_allok (w : World) (sym : String) (bl nl : ℚ)
    (hset : ∀ t v q, w.setLev t v q = .ok ()) :
    levPhase w sym bl nl .absent .absent =
      ([TCall.setLeverage .bybit bl sym, TCall.setLeverage .binance nl sym], .ok nl) := by
  simp [levPhase, bybitLeverageDecision, binanceLeverageMax, pymin_self, hset, bybitSetLevHandle]

/-- Assembly of a non-dry run that reaches the hedge leg: the trace is the two
`setLeverage` calls, the primary buy, the hedge-leg calls, and (on a normal
hedge-leg outcome) the brackets. -/
theorem execute_assemble_ok (w : World) (sym : String) (p : Params) (bl nl : ℚ)
    (env : EnvVal) (n1 : ℕ) (trH : List TCall) (ob2 : Option ℕ)
    (hset : ∀ t v q, w.setLev t v q = .ok ())
    (hentry : p.entry ≠ 0)
    (hprim : w.createOrd 2 .bybit (marketOrder "buy" p.size none) = .ok n1)
    (hha : hedgeAttempt w 3 sym (hedge_size_calc env p.size p.entry nl) = (trH, .ok ob2)) :
    execute w sym p bl nl .absent .absent env false =
      (TCall.setLeverage .bybit bl sym :: TCall.setLeverage .binance nl sym ::
        TCall.createOrder .bybit sym (marketOrder "buy" p.size none) ::
        (trH ++ bracketCalls sym p.size (hedge_size_calc env p.size p.entry nl)
          p.sl p.tp ob2.isSome),
       .ok (some n1, ob2)) := by
  simp [execute, levPhase_allok w sym bl nl hset, hentry, hprim, hha]

/-- `execute` never submits a plain market sell on the primary venue: the
primary leg is never unwound, whatever the venues answer. -/
theorem execute_no_primary_unwind (w : World) (sym : String) (p : Params) (bl nl : ℚ)
    (mb mn : MaxLev) (env : EnvVal) (dry : Bool) (s : String) (q : ℚ) (ps : Option String) :
    TCall.createOrder .bybit s (marketOrder "sell" q ps) ∉
      (execute w sym p bl nl mb mn env dry).1 := by
  intro hc
  rcases hlp : levPhase w sym bl nl mb mn with ⟨tr, res⟩
  have hlev : ∀ c ∈ tr, ∃ v l s2, c = TCall.setLeverage v l s2 := by
    have h := levPhase_no_orders w sym bl nl mb mn
    rw [hlp] at h
    exact h
  have hktr : TCall.createOrder .bybit s (marketOrder "sell" q ps) ∉ tr := by
    intro hm
    obtain ⟨v, l, s2, heq⟩ := hlev _ hm
    simp at heq
  cases res with
  | error e =>
    rw [show (execute w sym p bl nl mb mn env dry).1 = tr by simp [execute, hlp]] at hc
    exact hktr hc
  | ok lev =>
    by_cases he : p.entry = 0
    · rw [show (execute w sym p bl nl mb mn env dry).1 = tr by simp [execute, hlp, he]] at hc
      exact hktr hc
    · cases dry with
      | true =>
        rw [show (execute w sym p bl nl mb mn env true).1 = tr by simp [execute, hlp, he]] at hc
        exact hktr hc
      | false =>
        cases hco : w.createOrd tr.length .bybit (marketOrder "buy" p.size none) with
        | error e =>
          rw [show (execute w sym p bl nl mb mn env false).1 =
              tr ++ [TCall.createOrder .bybit sym (marketOrder "buy" p.size none)] by
            simp [execute, hlp, he, hco]] at hc
          rcases List.mem_append.mp hc with h | h
          · exact hktr h
          · simp [marketOrder] at h
        | ok ob1 =>
          rcases hha : hedgeAttempt w (tr.length + 1) sym
              (hedge_size_calc env p.size p.entry lev) with ⟨trH, resH⟩
          have hkH : TCall.createOrder .bybit s (marketOrder "sell" q ps) ∉ trH := by
            intro hm
            have h2 := hedgeAttempt_calls w (tr.length + 1) sym
              (hedge_size_calc env p.size p.entry lev) _ (by rw [hha]; exact hm)
            rcases h2 with heq | ⟨r, heq⟩ <;> simp at heq
          cases resH with
          | error e =>
            rw [show (execute w sym p bl nl mb mn env false).1 =
                tr ++ TCall.createOrder .bybit sym (marketOrder "buy" p.size none) :: trH by
              simp [execute, hlp, he, hco, hha]] at hc
            rcases List.mem_append.mp hc with h | h
            · exact hktr h
            · rcases List.mem_cons.mp h with heq | h2
              · simp [marketOrder] at heq
              · exact hkH h2
          | ok ob2 =>
            rw [show (execute w sym p bl nl mb mn env false).1 =
                tr ++ TCall.createOrder .bybit sym (marketOrder "buy" p.size none) ::
                  (trH ++ bracketCalls sym p.size (hedge_size_calc env p.size p.entry lev)
                    p.sl p.tp ob2.isSome) by
              simp [execute, hlp, he, hco, hha]] at hc
            rcases List.mem_append.mp hc with h | h
            · exact hktr h
            · rcases List.mem_cons.mp h with heq | h2
              · simp [marketOrder] at heq
              · rcases List.mem_append.mp h2 with h3 | h3
                · exact hkH h3
                · exact bracketCalls_no_market sym p.size _ p.sl p.tp _ s q ps .bybit h3

/-! ## Claim C8 -/

/-- Claim C8 counterexample: the hedge short is rejected, a conflicting long
of 5 contracts exists, the closing order is submitted — and is itself
rejected, after which the short is **not** retried (the short market order
appears exactly once in the trace), while execution still continues with a
null hedge reference.  This refutes "a closing order … is submitted and the
short is retried exactly once" as an unconditional consequence of a
conflicting long exposure. -/
theorem c8_hedge_recovery_counterexample :
    execute wCloseFail "S" ⟨1, 1, 1, 1⟩ 20 20 MaxLev.absent MaxLev.absent EnvVal.unset false =
      ([TCall.setLeverage Venue.bybit 20 "S", TCall.setLeverage Venue.binance 20 "S",
        TCall.createOrder Venue.bybit "S" (marketOrder "buy" 1 none),
        TCall.createOrder Venue.binance "S" (marketOrder "sell" 1 (some "SHORT")),
        TCall.fetchPositions Venue.binance,
        TCall.createOrder Venue.binance "S" (marketOrder "sell" 5 (some "BOTH")),
        TCall.createOrder Venue.bybit "S" ⟨"STOP_MARKET", "sell", 1, some 1, none, some "below", true⟩,
        TCall.createOrder Venue.bybit "S" ⟨"TAKE_PROFIT_MARKET", "sell", 1, some 1, none, some "above", true⟩],
       .ok (some 7, none)) ∧
    ((execute wCloseFail "S" ⟨1, 1, 1, 1⟩ 20 20 MaxLev.absent MaxLev.absent EnvVal.unset false).1.count
      (TCall.createOrder Venue.binance "S" (marketOrder "sell" 1 (some "SHORT"))) = 1) := by
  decide

/-- Claim C8, amended: when the hedge short is rejected with a venue error,
open positions are queried; if a positive long exposure exists on the symbol,
a closing order for exactly that quantity is submitted and — provided the
close succeeds — the short is retried exactly once; if the close, the
position query, or the retry fails, or there is no conflicting exposure, the
hedge reference is null and execution continues; in every case the primary
leg is never unwound (no primary-venue market sell is ever issued). -/
theorem c8_hedge_recovery_amended (w : World) (sym : String) (p : Params) (bl nl : ℚ)
    (env : EnvVal) (n1 : ℕ) (m : String) (q : ℚ) (cref r2 : ℕ) (e2 e3 : PyExc)
    (hset : ∀ t v q2, w.setLev t v q2 = .ok ())
    (hentry : p.entry ≠ 0)
    (hprim : w.createOrd 2 .bybit (marketOrder "buy" p.size none) = .ok n1)
    (hhedge : w.createOrd 3 .binance
      (marketOrder "sell" (hedge_size_calc env p.size p.entry nl) (some "SHORT")) =
      .error (.exchangeError m)) :
    (w.fetchPos 4 .binance = .ok [] →
      execute w sym p bl nl .absent .absent env false =
        ([TCall.setLeverage .bybit bl sym, TCall.setLeverage .binance nl sym,
          TCall.createOrder .bybit sym (marketOrder "buy" p.size none),
          TCall.createOrder .binance sym
            (marketOrder "sell" (hedge_size_calc env p.size p.entry nl) (some "SHORT")),
          TCall.fetchPositions .binance] ++
          bracketCalls sym p.size (hedge_size_calc env p.size p.entry nl) p.sl p.tp false,
         .ok (some n1, none))) ∧
    (w.fetchPos 4 .binance = .ok [⟨sym, some q, none⟩] → 0 < q →
      ((w.createOrd 5 .binance (marketOrder "sell" q (some "BOTH")) = .error e2 →
        execute w sym p bl nl .absent .absent env false =
          ([TCall.setLeverage .bybit bl sym, TCall.setLeverage .binance nl sym,
            TCall.createOrder .bybit sym (marketOrder "buy" p.size none),
            TCall.createOrder .binance sym
              (marketOrder "sell" (hedge_size_calc env p.size p.entry nl) (some "SHORT")),
            TCall.fetchPositions .binance,
            TCall.createOrder .binance sym (marketOrder "sell" q (some "BOTH"))] ++
            bracketCalls sym p.size (hedge_size_calc env p.size p.entry nl) p.sl p.tp false,
           .ok (some n1, none))) ∧
       (w.createOrd 5 .binance (marketOrder "sell" q (some "BOTH")) = .ok cref →
        ((w.createOrd 6 .binance
            (marketOrder "sell" (hedge_size_calc env p.size p.entry nl) (some "SHORT")) = .ok r2 →
          execute w sym p bl nl .absent .absent env false =
            ([TCall.setLeverage .bybit bl sym, TCall.setLeverage .binance nl sym,
              TCall.createOrder .bybit sym (marketOrder "buy" p.size none),
              TCall.createOrder .binance sym
                (marketOrder "sell" (hedge_size_calc env p.size p.entry nl) (some "SHORT")),
              TCall.fetchPositions .binance,
              TCall.createOrder .binance sym (marketOrder "sell" q (some "BOTH")),
              TCall.createOrder .binance sym
                (marketOrder "sell" (hedge_size_calc env p.size p.entry nl) (some "SHORT"))] ++
              bracketCalls sym p.size (hedge_size_calc env p.size p.entry nl) p.sl p.tp true,
             .ok (some n1, some r2))) ∧
         (w.createOrd 6 .binance
            (marketOrder "sell" (hedge_size_calc env p.size p.entry nl) (some "SHORT")) =
              .error e3 →
          execute w sym p bl nl .absent .absent env false =
            ([TCall.setLeverage .bybit bl sym, TCall.setLeverage .binance nl sym,
              TCall.createOrder .bybit sym (marketOrder "buy" p.size none),
              TCall.createOrder .binance sym
                (marketOrder "sell" (hedge_size_calc env p.size p.entry nl) (some "SHORT")),
              TCall.fetchPositions .binance,
              TCall.createOrder .binance sym (marketOrder "sell" q (some "BOTH")),
              TCall.createOrder .binance sym
                (marketOrder "sell" (hedge_size_calc env p.size p.entry nl) (some "SHORT"))] ++
              bracketCalls sym p.size (hedge_size_calc env p.size p.entry nl) p.sl p.tp false,
             .ok (some n1, none))))))) ∧
    (∀ (w2 : World) (sym2 : String) (p2 : Params) (bl2 nl2 : ℚ) (mb2 mn2 : MaxLev)
        (env2 : EnvVal) (dry2 : Bool) (s2 : String) (q2 : ℚ) (ps2 : Option String),
      TCall.createOrder .bybit s2 (marketOrder "sell" q2 ps2) ∉
        (execute w2 sym2 p2 bl2 nl2 mb2 mn2 env2 dry2).1) := by
  refine ⟨?_, ?_, ?_⟩
  · intro hfp
    have hha := hedgeAttempt_fail_nopos w 3 sym (hedge_size_calc env p.size p.entry nl) m
      hhedge hfp
    rw [execute_assemble_ok w sym p bl nl env n1 _ none hset hentry hprim hha]
    simp
  · intro hfp hqpos
    refine ⟨?_, ?_⟩
    · intro hclose
      have hha := hedgeAttempt_close_fail w 3 sym (hedge_size_calc env p.size p.entry nl) q m
        e2 hhedge hfp hqpos hclose
      rw [execute_assemble_ok w sym p bl nl env n1 _ none hset hentry hprim hha]
      simp
    · intro hclose
      refine ⟨?_, ?_⟩
      · intro hretry
        have hha := hedgeAttempt_recover w 3 sym (hedge_size_calc env p.size p.entry nl) q m
          cref r2 hhedge hfp hqpos hclose hretry
        rw [execute_assemble_ok w sym p bl nl env n1 _ (some r2) hset hentry hprim hha]
        simp
      · intro hretry
        have hha := hedgeAttempt_retry_fail w 3 sym (hedge_size_calc env p.size p.entry nl) q m
          cref e3 hhedge hfp hqpos hclose hretry
        rw [execute_assemble_ok w sym p bl nl env n1 _ none hset hentry hprim hha]
        simp
  · intro w2 sym2 p2 bl2 nl2 mb2 mn2 env2 dry2 s2 q2 ps2
    exact execute_no_primary_unwind w2 sym2 p2 bl2 nl2 mb2 mn2 env2 dry2 s2 q2 ps2

theorem c8_hedge_recovery_amended_witness :
    execute wRecover "S" ⟨1, 1, 1, 1⟩ 20 20 MaxLev.absent MaxLev.absent EnvVal.unset false =
      ([TCall.setLeverage .bybit 20 "S", TCall.setLeverage .binance 20 "S",
        TCall.createOrder .bybit "S" (marketOrder "buy" 1 none),
        TCall.createOrder .binance "S"
          (marketOrder "sell" (hedge_size_calc EnvVal.unset 1 1 20) (some "SHORT")),
        TCall.fetchPositions .binance,
        TCall.createOrder .binance "S" (marketOrder "sell" 5 (some "BOTH")),
        TCall.createOrder .binance "S"
          (marketOrder "sell" (hedge_size_calc EnvVal.unset 1 1 20) (some "SHORT"))] ++
        bracketCalls "S" 1 (hedge_size_calc EnvVal.unset 1 1 20) 1 1 true,
       .ok (some 11, some 14)) :=
  ((((c8_hedge_recovery_amended wRecover "S" ⟨1, 1, 1, 1⟩ 20 20 EnvVal.unset 11
      "position side conflict" 5 13 14 (.other "x") (.other "y")
      (fun _ _ _ => rfl) (by decide) (by decide) (by decide)).2.1
    (by decide) (by decide)).2 (by decide)).1 (by decide))

/-! ## Claim C9 -/

/-- Claim C9: under any world (so regardless of the outcome of each bracket
placement) a run whose both legs succeeded issues all four bracket orders —
primary SL (sell, trigger below at `sl`), primary TP (sell, trigger above at
`tp`), hedge-venue TP (a **buy** triggered at the stop-loss price `sl`), and
hedge-venue SL (a **buy** triggered at the take-profit price `tp`) — and
still returns normally; when the hedge leg did not succeed, the hedge-venue
brackets are skipped entirely and only the two primary-venue brackets are
placed. -/
theorem c9_bracket_placement (w : World) (sym : String) (p : Params) (bl nl : ℚ)
    (env : EnvVal) (n1 r : ℕ) (m : String)
    (hset : ∀ t v q, w.setLev t v q = .ok ())
    (hentry : p.entry ≠ 0)
    (hprim : w.createOrd 2 .bybit (marketOrder "buy" p.size none) = .ok n1) :
    (w.createOrd 3 .binance
        (marketOrder "sell" (hedge_size_calc env p.size p.entry nl) (some "SHORT")) = .ok r →
      execute w sym p bl nl .absent .absent env false =
        ([TCall.setLeverage .bybit bl sym, TCall.setLeverage .binance nl sym,
          TCall.createOrder .bybit sym (marketOrder "buy" p.size none),
          TCall.createOrder .binance sym
            (marketOrder "sell" (hedge_size_calc env p.size p.entry nl) (some "SHORT")),
          TCall.createOrder .bybit sym
            ⟨"STOP_MARKET", "sell", p.size, some p.sl, none, some "below", true⟩,
          TCall.createOrder .bybit sym
            ⟨"TAKE_PROFIT_MARKET", "sell", p.size, some p.tp, none, some "above", true⟩,
          TCall.createOrder .binance sym
            ⟨"TAKE_PROFIT_MARKET", "buy", hedge_size_calc env p.size p.entry nl,
              some p.sl, some "SHORT", none, true⟩,
          TCall.createOrder .binance sym
            ⟨"STOP_MARKET", "buy", hedge_size_calc env p.size p.entry nl,
              some p.tp, some "SHORT", none, true⟩],
         .ok (some n1, some r))) ∧
    (w.createOrd 3 .binance
        (marketOrder "sell" (hedge_size_calc env p.size p.entry nl) (some "SHORT")) =
          .error (.exchangeError m) →
      w.fetchPos 4 .binance = .ok [] →
      execute w sym p bl nl .absent .absent env false =
        ([TCall.setLeverage .bybit bl sym, TCall.setLeverage .binance nl sym,
          TCall.createOrder .bybit sym (marketOrder "buy" p.size none),
          TCall.createOrder .binance sym
            (marketOrder "sell" (hedge_size_calc env p.size p.entry nl) (some "SHORT")),
          TCall.fetchPositions .binance,
          TCall.createOrder .bybit sym
            ⟨"STOP_MARKET", "sell", p.size, some p.sl, none, some "below", true⟩,
          TCall.createOrder .bybit sym
            ⟨"TAKE_PROFIT_MARKET", "sell", p.size, some p.tp, none, some "above", true⟩],
         .ok (some n1, none))) := by
  constructor
  · intro hok
    have hha := hedgeAttempt_ok w 3 sym (hedge_size_calc env p.size p.entry nl) r hok
    rw [execute_assemble_ok w sym p bl nl env n1 _ (some r) hset hentry hprim hha]
    simp [bracketCalls]
  · intro herr hfp
    have hha := hedgeAttempt_fail_nopos w 3 sym (hedge_size_calc env p.size p.entry nl) m
      herr hfp
    rw [execute_assemble_ok w sym p bl nl env n1 _ none hset hentry hprim hha]
    simp [bracketCalls]

theorem c9_bracket_placement_witness :
    execute wOk "S" ⟨1, 1, 1, 1⟩ 20 20 MaxLev.absent MaxLev.absent EnvVal.unset false =
      ([TCall.setLeverage .bybit 20 "S", TCall.setLeverage .binance 20 "S",
        TCall.createOrder .bybit "S" (marketOrder "buy" 1 none),
        TCall.createOrder .binance "S"
          (marketOrder "sell" (hedge_size_calc EnvVal.unset 1 1 20) (some "SHORT")),
        TCall.createOrder .bybit "S" ⟨"STOP_MARKET", "sell", 1, some 1, none, some "below", true⟩,
        TCall.createOrder .bybit "S" ⟨"TAKE_PROFIT_MARKET", "sell", 1, some 1, none, some "above", true⟩,
        TCall.createOrder .binance "S"
          ⟨"TAKE_PROFIT_MARKET", "buy", hedge_size_calc EnvVal.unset 1 1 20, some 1, some "SHORT", none, true⟩,
        TCall.createOrder .binance "S"
          ⟨"STOP_MARKET", "buy", hedge_size_calc EnvVal.unset 1 1 20, some 1, some "SHORT", none, true⟩],
       .ok (some 1, some 1)) :=
  (c9_bracket_placement wOk "S" ⟨1, 1, 1, 1⟩ 20 20 EnvVal.unset 1 1 "x"
    (fun _ _ _ => rfl) (by decide) (by decide)).1 (by decide)

/-! ## Claim C10 -/

/-- Claim C10: the primary leg is sized from the CLI budget (`plan_strategy`
receives `args.usdt_amount`), while the hedge budget is re-read from the
`USDT_AMOUNT` environment variable inside `execute`: when unset the fallback
`size × entry` is used whatever the CLI budget was, and when set to `v` the
hedge budget is `v` even when `v` differs from the CLI budget; the hedge
short actually submitted carries exactly the size computed from that
environment-derived budget. -/
theorem c10_env_budget (p0 b : ℚ) (rest : List (ℚ × ℚ)) (cli v : ℚ) (pl : Params)
    (hpl : plan_strategy ((p0, b) :: rest) cli = some pl) :
    pl.size = calculate_contracts ((p0, b) :: rest) cli (1/1000) ∧
    pl.entry = p0 ∧
    usdtExec EnvVal.unset pl.size pl.entry = pl.size * pl.entry ∧
    (v ≠ cli → usdtExec (EnvVal.num v) pl.size pl.entry = v) ∧
    (∀ (w : World) (sym : String) (bl nl : ℚ) (env : EnvVal) (n1 r : ℕ),
      (∀ t u q, w.setLev t u q = .ok ()) → pl.entry ≠ 0 →
      w.createOrd 2 .bybit (marketOrder "buy" pl.size none) = .ok n1 →
      w.createOrd 3 .binance
        (marketOrder "sell" (hedge_size_calc env pl.size pl.entry nl) (some "SHORT")) = .ok r →
      TCall.createOrder .binance sym
        (marketOrder "sell" (hedge_size_calc env pl.size pl.entry nl) (some "SHORT"))
        ∈ (execute w sym pl bl nl .absent .absent env false).1) := by
  simp only [plan_strategy, Option.some.injEq] at hpl
  subst hpl
  refine ⟨rfl, rfl, rfl, fun _ => rfl, ?_⟩
  intro w sym bl nl env n1 r hset hentry hprim hok
  have hha := hedgeAttempt_ok w 3 sym _ r hok
  rw [execute_assemble_ok w sym _ bl nl env n1 _ (some r) hset hentry hprim hha]
  simp

theorem c10_env_budget_witness :
    usdtExec (EnvVal.num 7) 10 2 = 7 ∧
    TCall.createOrder .binance "S"
        (marketOrder "sell" (hedge_size_calc EnvVal.unset 10 2 20) (some "SHORT"))
      ∈ (execute wOk "S" ⟨10, 2, 99/50, 101/50⟩ 20 20 MaxLev.absent MaxLev.absent
          EnvVal.unset false).1 :=
  have h := c10_env_budget 2 10 [] 100 7 ⟨10, 2, 99/50, 101/50⟩ (by decide)
  ⟨h.2.2.2.1 (by decide),
   h.2.2.2.2 wOk "S" 20 20 EnvVal.unset 1 1 (fun _ _ _ => rfl) (by decide) (by decide) (by decide)⟩

end Trade
